import Mathlib

/-!
Verification development for the multi-source calendar aggregation page
(`src/App.tsx`).  The definitions below are a shallow embedding of the
second (multi-calendar) variant of `App.tsx`: configuration resolution
(`getCalendarConfigs`), per-source fetch-and-parse (`fetchCalendarEvents`),
aggregation (`fetchAllCalendars`), the visibility toggles
(`toggleCalendar`, `toggleDetails`), the swipe recognizer
(`handleTouchEnd`) and date navigation (`handleNavigate`).

Strings are modelled as `List Char` so that the character-level key
surgery of the configuration resolver (`String.prototype.replace` of the
first occurrence, prefix/suffix tests, `toLowerCase`) can be embedded
faithfully.  JavaScript truthiness tests that the source relies on
(`envVars[k] || d`, `if (event.description)`, `if (!touchStart || !touchEnd)`)
are embedded explicitly (`jsOr`, `jsStrTruthy`, `jsFalsyNum`): `undefined`
becomes `none`, and the empty string / the number `0` are falsy.

Network fetch and ICS parsing are performed by external collaborators
(`fetch`, `ical.js`); their outcome for one source is modelled as an
`Except Str (List VEvent)` value: `Except.error` is a rejected fetch or a
parse exception, `Except.ok` is the parsed list of VEVENT components.
Instants (`Date` values of event boundaries) are opaque integers here;
the date arithmetic of `handleNavigate` is modelled separately on civil
dates (`CDate`) with the ECMAScript `setDate` / `setMonth`
overflow-normalization semantics (`normDay`).
-/

abbrev Str := List Char

/-- JavaScript `a || b` where `a : string | undefined`: `undefined` and the
empty string are falsy and select the default. -/
def jsOr (o : Option Str) (dflt : Str) : Str :=
  match o with
  | some v => if v.isEmpty then dflt else v
  | none => dflt

/-- JavaScript truthiness of a `string | null` value (`null` and `""` are
falsy), as used by `if (event.description)` / `if (event.location)`. -/
def jsStrTruthy : Option Str → Bool
  | none => false
  | some s => !s.isEmpty

/-- JavaScript falsiness of a `number | null` value: `null` and `0` are
falsy, as used by `if (!touchStart || !touchEnd)`. -/
def jsFalsyNum : Option Int → Bool
  | none => true
  | some v => v == 0

/-- `interface CalendarConfig` of `App.tsx`. -/
structure CalendarConfig where
  id : Str
  url : Str
  color : Str
  title : Str
  enabled : Bool
  showDetails : Bool
deriving DecidableEq, Repr

/-- A parsed VEVENT component as surfaced by `ICAL.Event`: `summary` is
always a string (the input format guarantees a summary), `description` and
`location` are `null` (`none`) when the property is absent, and
`startIsDate` is `event.startDate.isDate` (a date-only start boundary). -/
structure VEvent where
  summary : Str
  description : Option Str
  location : Option Str
  startDate : Int
  endDate : Int
  startIsDate : Bool
deriving DecidableEq, Repr

/-- `interface CalendarEvent` of `App.tsx`.  The TS field `end` is a Lean
keyword and is called `endTime` here. -/
structure CalendarEvent where
  title : Str
  description : Option Str
  location : Option Str
  start : Int
  endTime : Int
  allDay : Bool
  calendarId : Str
deriving DecidableEq, Repr

/-! ### Configuration resolver (`getCalendarConfigs`) -/

/-- The literal `'REACT_APP_CALENDAR_'` of `getCalendarConfigs`. -/
def calKeyHead : Str := "REACT_APP_CALENDAR_".data

/-- The literal `'_URL'` of `getCalendarConfigs`. -/
def urlKeyTail : Str := "_URL".data

/-- JavaScript `s.replace(pat, '')`: removes the first occurrence of `pat`
from `s` (and returns `s` unchanged when `pat` does not occur). -/
def replaceFirst (pat : Str) : Str → Str
  | [] => []
  | c :: rest =>
    if pat.isPrefixOf (c :: rest) then (c :: rest).drop pat.length
    else c :: replaceFirst pat rest

/-- `envVars[k]`: the environment is a flat key→value mapping, modelled as
an association list in key order (JavaScript object keys are unique). -/
def lookupEnv (env : List (Str × Str)) (k : Str) : Option Str :=
  (env.find? (fun p => p.1 == k)).map Prod.snd

/-- The body of the `forEach` of `getCalendarConfigs` for one key: when the
key matches `REACT_APP_CALENDAR_..._URL`, builds the `CalendarConfig`
pushed for it (with the `|| default` fallbacks of the source), otherwise
produces nothing. -/
def buildConfig (env : List (Str × Str)) (key : Str) : Option CalendarConfig :=
  if calKeyHead.isPrefixOf key && urlKeyTail.isSuffixOf key then
    let baseKey := replaceFirst urlKeyTail (replaceFirst calKeyHead key)
    some
      { id := baseKey.map Char.toLower
        url := jsOr (lookupEnv env key) []
        color := jsOr (lookupEnv env (calKeyHead ++ baseKey ++ "_COLOR".data)) "#4F46E5".data
        title := jsOr (lookupEnv env (calKeyHead ++ baseKey ++ "_TITLE".data)) baseKey
        enabled := true
        showDetails := lookupEnv env (calKeyHead ++ baseKey ++ "_SHOW_DETAILS".data) == some "true".data }
  else none

/-- `getCalendarConfigs`: iterates over `Object.keys(envVars)` and pushes
one config per matching `_URL` key. -/
def getCalendarConfigs (env : List (Str × Str)) : List CalendarConfig :=
  (env.map Prod.fst).filterMap (buildConfig env)

/-! ### Per-source fetch-and-parse (`fetchCalendarEvents`) -/

/-- The arrow function inside `vevents.map` of `fetchCalendarEvents`:
field mapping from one parsed component to a `CalendarEvent`.  The
`description` / `location` copies are guarded by JavaScript truthiness of
the component's fields, exactly as `if (event.description) ...`. -/
def mapVevent (calendar : CalendarConfig) (vevent : VEvent) : CalendarEvent :=
  let eventData : CalendarEvent :=
    { title := if calendar.showDetails then vevent.summary else calendar.title
      description := none
      location := none
      start := vevent.startDate
      endTime := vevent.endDate
      allDay := vevent.startIsDate
      calendarId := calendar.id }
  if calendar.showDetails then
    { eventData with
        description := if jsStrTruthy vevent.description then vevent.description else none
        location := if jsStrTruthy vevent.location then vevent.location else none }
  else eventData

/-- `fetchCalendarEvents`: the whole body is wrapped in `try/catch`; a
rejected fetch or a parse exception is caught and yields `[]`. -/
def fetchCalendarEvents (calendar : CalendarConfig)
    (outcome : Except Str (List VEvent)) : List CalendarEvent :=
  match outcome with
  | Except.ok vevents => vevents.map (mapVevent calendar)
  | Except.error _ => []

/-! ### Aggregation (`fetchAllCalendars`) -/

/-- `Promise.all` on settled per-task results: resolves with the list of
values in task-array order, rejects as soon as some task rejected. -/
def promiseAll {α : Type} : List (Except Str α) → Except Str (List α)
  | [] => Except.ok []
  | t :: ts =>
    match t with
    | Except.ok a =>
      match promiseAll ts with
      | Except.ok rest => Except.ok (a :: rest)
      | Except.error e => Except.error e
    | Except.error e => Except.error e

/-- `fetchAllCalendars`: filters the enabled sources, runs
`fetchCalendarEvents` for each (each such task resolves — its own
`try/catch` swallows failures, hence the `Except.ok` wrapper), awaits
`Promise.all` and flattens.  An `Except.error` result would correspond to
the outer `catch` firing. -/
def fetchAllCalendars (calendars : List CalendarConfig)
    (outcomes : CalendarConfig → Except Str (List VEvent)) :
    Except Str (List CalendarEvent) :=
  match promiseAll ((calendars.filter (fun cal => cal.enabled)).map
      (fun calendar => Except.ok (fetchCalendarEvents calendar (outcomes calendar)))) with
  | Except.ok allEvents => Except.ok allEvents.flatten
  | Except.error e => Except.error e

/-- The event list published by `setEvents` at the end of a completed
aggregation cycle (on the outer `catch` path nothing is published; the
previously published list — empty at mount — remains, modelled as `[]`). -/
def publishedEvents (calendars : List CalendarConfig)
    (outcomes : CalendarConfig → Except Str (List VEvent)) : List CalendarEvent :=
  match fetchAllCalendars calendars outcomes with
  | Except.ok evts => evts
  | Except.error _ => []

/-- The join of `Promise.all` under an explicit completion schedule:
`tasks` are the per-source result lists in task-array order, `order` is
the order in which the fetches complete; each completion stores its result
into its own slot of the result array.  `Promise.all` resolves with the
slot array once every index has completed. -/
def promiseAllJoin {α : Type} (tasks : List (List α)) (order : List Nat) :
    List (Option (List α)) :=
  order.foldl (fun slots i => slots.set i (some (tasks.getD i [])))
    (List.replicate tasks.length none)

/-! ### Visibility toggles -/

/-- `toggleCalendar`. -/
def toggleCalendar (calendarId : Str) (calendars : List CalendarConfig) :
    List CalendarConfig :=
  calendars.map (fun cal =>
    if cal.id == calendarId then { cal with enabled := !cal.enabled } else cal)

/-- `toggleDetails`. -/
def toggleDetails (calendarId : Str) (calendars : List CalendarConfig) :
    List CalendarConfig :=
  calendars.map (fun cal =>
    if cal.id == calendarId then { cal with showDetails := !cal.showDetails } else cal)

/-! ### Swipe recognizer -/

/-- The navigation actions of `react-big-calendar` used by `handleNavigate`. -/
inductive NavAction
  | PREV
  | NEXT
  | TODAY
deriving DecidableEq, Repr

/-- The touch coordinates tracked by the component
(`touchStart` / `touchEnd` state, `null` when unset). -/
structure TouchState where
  touchStart : Option Int
  touchEnd : Option Int
deriving DecidableEq, Repr

/-- `handleTouchStart`: records the x coordinate of the touch. -/
def handleTouchStart (x : Int) (s : TouchState) : TouchState :=
  { s with touchStart := some x }

/-- `handleTouchMove`: records the x coordinate of the move. -/
def handleTouchMove (x : Int) (s : TouchState) : TouchState :=
  { s with touchEnd := some x }

/-- `handleTouchEnd`: returns the dispatched navigation actions together
with the state after the handler ran.  The early `return` fires when
either coordinate is JavaScript-falsy (`null` or `0`) and skips the reset. -/
def handleTouchEnd (s : TouchState) : List NavAction × TouchState :=
  if jsFalsyNum s.touchStart || jsFalsyNum s.touchEnd then ([], s)
  else
    let distance := s.touchStart.getD 0 - s.touchEnd.getD 0
    ((if distance > 50 then [NavAction.NEXT] else [])
      ++ (if distance < -50 then [NavAction.PREV] else []),
      { touchStart := none, touchEnd := none })

/-! ### Date model

`handleNavigate` mutates a JavaScript `Date` via `setDate` / `setMonth`.
Following ECMAScript `MakeDay`, a civil date is a year, a 0-based month
(`0` = January, invariant `month < 12`) and a 1-based day of month; an
out-of-range day (as produced by `setDate(getDate() ± k)` or by keeping a
day of 29–31 while changing the month) is normalized by borrowing/carrying
whole months (`normDay`).  The time-of-day component is unchanged by both
setters and is omitted. -/

/-- Proleptic Gregorian leap-year rule (ECMAScript `DaysInYear`). -/
def isLeap (y : Int) : Bool :=
  (decide (y % 4 = 0) && !decide (y % 100 = 0)) || decide (y % 400 = 0)

/-- `1` in a leap year, else `0`. -/
def leapAdj (y : Int) : Int := if isLeap y then 1 else 0

/-- Number of days of month `m` (0-based) of year `y`. -/
def monthLength (y : Int) (m : Nat) : Int :=
  if m = 1 then (if isLeap y then 29 else 28)
  else if m = 3 ∨ m = 5 ∨ m = 8 ∨ m = 10 then 30
  else 31

/-- Days of year `y` that lie before month `m` (0-based). -/
def daysBefore (y : Int) : Nat → Int
  | 0 => 0
  | m + 1 => daysBefore y m + monthLength y m

/-- Day number of January 1 of year `y` on a linear day count (the epoch
offset is irrelevant; only differences of day numbers are used). -/
def firstOfYear (y : Int) : Int :=
  365 * y + (y - 1) / 4 - (y - 1) / 100 + (y - 1) / 400

/-- The month after `(y, m)`. -/
def nextYM (y : Int) (m : Nat) : Int × Nat :=
  if m = 11 then (y + 1, 0) else (y, m + 1)

/-- The month before `(y, m)`. -/
def prevYM (y : Int) (m : Nat) : Int × Nat :=
  if m = 0 then (y - 1, 11) else (y, m - 1)

/-- A civil date as exposed by a JavaScript `Date`
(`getFullYear` / `getMonth` / `getDate`). -/
structure CDate where
  year : Int
  month : Nat
  day : Int
deriving DecidableEq, Repr

/-- ECMAScript `MakeDay` day normalization: a day value outside
`[1, monthLength]` borrows from the previous month or carries into the
next month until it is in range. -/
def normDay (y : Int) (m : Nat) (d : Int) : CDate :=
  if d < 1 then
    normDay (prevYM y m).1 (prevYM y m).2 (d + monthLength (prevYM y m).1 (prevYM y m).2)
  else if monthLength y m < d then
    normDay (nextYM y m).1 (nextYM y m).2 (d - monthLength y m)
  else ⟨y, m, d⟩
termination_by (32 * (1 - d).toNat + (d - 28).toNat)
decreasing_by
  · have h1 : 28 ≤ monthLength (prevYM y m).1 (prevYM y m).2
        ∧ monthLength (prevYM y m).1 (prevYM y m).2 ≤ 31 := by
      unfold monthLength
      split
      · split <;> omega
      · split <;> omega
    omega
  · have h1 : 28 ≤ monthLength y m ∧ monthLength y m ≤ 31 := by
      unfold monthLength
      split
      · split <;> omega
      · split <;> omega
    omega

/-- Linear day count of an (extended) civil date; for `d` outside the
month this extends linearly, so it also measures un-normalized dates. -/
def extDayNumber (y : Int) (m : Nat) (d : Int) : Int :=
  firstOfYear y + daysBefore y m + d - 1

/-- Linear day count of a civil date: two dates are `k` days apart exactly
when their day numbers differ by `k`. -/
def dayNumber (D : CDate) : Int := extDayNumber D.year D.month D.day

/-- JavaScript `newDate.setDate(v)` (year and month taken from `D`, the
day set to `v` and normalized). -/
def jsSetDate (D : CDate) (v : Int) : CDate := normDay D.year D.month v

/-- JavaScript `newDate.setMonth(v)`: per `MakeDay`, the possibly
out-of-range month `v` is normalized into the year first, then the kept
day of month is normalized. -/
def jsSetMonth (D : CDate) (v : Int) : CDate :=
  normDay (D.year + v / 12) (v % 12).toNat D.day

/-- The `react-big-calendar` views enabled by `customViews`. -/
inductive CalView
  | month
  | week
  | work_week
  | day
  | agenda
deriving DecidableEq, Repr

/-- `handleNavigate`: `view` is the `view` state, `date` the `date` state,
`now` the instant `new Date()` would produce.  Views without a case in the
source's `switch` (`day`, `agenda`) leave the copied date unchanged. -/
def handleNavigate (view : CalView) (date now : CDate) : NavAction → CDate
  | NavAction.PREV =>
    match view with
    | CalView.month => jsSetMonth date ((date.month : Int) - 1)
    | CalView.week => jsSetDate date (date.day - 7)
    | CalView.work_week => jsSetDate date (date.day - 3)
    | _ => date
  | NavAction.NEXT =>
    match view with
    | CalView.month => jsSetMonth date ((date.month : Int) + 1)
    | CalView.week => jsSetDate date (date.day + 7)
    | CalView.work_week => jsSetDate date (date.day + 3)
    | _ => date
  | NavAction.TODAY => now

/-- A well-formed civil date (month in range, day within the month). -/
def ValidDate (D : CDate) : Prop :=
  D.month < 12 ∧ 1 ≤ D.day ∧ D.day ≤ monthLength D.year D.month

instance (D : CDate) : Decidable (ValidDate D) := by
  unfold ValidDate
  infer_instance

/-- The two-source scenario of the spec: source A shows details and B
hides them behind the configured title `Occupied`. -/
def scenarioCals : List CalendarConfig :=
  [⟨"a".data, "ua".data, "#111111".data, "A".data, true, true⟩,
   ⟨"b".data, "ub".data, "#222222".data, "Occupied".data, true, false⟩]

/-- Fetch outcomes of the scenario: A has one event titled `Lunch`
(12:00–13:00), B one event (14:00–15:00). -/
def scenarioOutcomes : CalendarConfig → Except Str (List VEvent) := fun c =>
  if c.id = "a".data
  then Except.ok [⟨"Lunch".data, none, none, 1200, 1300, false⟩]
  else Except.ok [⟨"Busy".data, none, none, 1400, 1500, false⟩]

/-- A well-formed source name for a `REACT_APP_CALENDAR_<NAME>_URL` key:
nonempty and not itself containing the `_URL` marker, so that the key
decodes back to the name. -/
def WellFormedName (n : Str) : Prop := n ≠ [] ∧ ¬ urlKeyTail <:+: n

instance (n : Str) : Decidable (WellFormedName n) := by
  unfold WellFormedName
  infer_instance

/-- The environment key `REACT_APP_CALENDAR_<NAME>_URL` of a named source. -/
def mkUrlKey (n : Str) : Str := calKeyHead ++ n ++ urlKeyTail

/-- A configuration consisting of URL entries alone (one per named source,
in configuration order, no optional sibling keys). -/
def mkUrlEnv (entries : List (Str × Str)) : List (Str × Str) :=
  entries.map (fun p => (mkUrlKey p.1, p.2))

/-- The record the resolver is expected to produce for a URL-only entry
(spec defaults: fixed color `#4F46E5`, the name segment as title, details
hidden, source enabled, id the lower-cased name). -/
def defaultConfig (p : Str × Str) : CalendarConfig :=
  { id := p.1.map Char.toLower
    url := p.2
    color := "#4F46E5".data
    title := p.1
    enabled := true
    showDetails := false }

/-! ## Theorems

First the date-arithmetic lemmas, then the list lemmas, then one theorem
per claim (with witnesses / counterexamples). -/

theorem monthLength_bounds (y : Int) (m : Nat) :
    28 ≤ monthLength y m ∧ monthLength y m ≤ 31 := by
  unfold monthLength
  split
  · split <;> omega
  · split <;> omega

theorem firstOfYear_succ (y : Int) :
    firstOfYear (y + 1) = firstOfYear y + 365 + leapAdj y := by
  unfold firstOfYear leapAdj isLeap
  have h : y + 1 - 1 = y := by ring
  rw [h]
  split <;> rename_i hl
  · simp only [Bool.or_eq_true, Bool.and_eq_true, Bool.not_eq_true',
      decide_eq_true_eq, decide_eq_false_iff_not] at hl
    omega
  · simp only [Bool.or_eq_true, Bool.and_eq_true, Bool.not_eq_true',
      decide_eq_true_eq, decide_eq_false_iff_not, not_or, not_and] at hl
    omega

theorem daysBefore_year (y : Int) : daysBefore y 12 = 365 + leapAdj y := by
  show daysBefore y (11+1) = _
  simp only [daysBefore, monthLength, leapAdj]
  norm_num
  split <;> omega

theorem extDayNumber_prev (y : Int) (m : Nat) (hm : m < 12) (d : Int) :
    extDayNumber (prevYM y m).1 (prevYM y m).2
      (d + monthLength (prevYM y m).1 (prevYM y m).2) = extDayNumber y m d := by
  by_cases h0 : m = 0
  · subst h0
    have hp : prevYM y 0 = (y - 1, 11) := rfl
    rw [hp]
    dsimp only
    have h1 : daysBefore (y - 1) 11 + monthLength (y - 1) 11 = daysBefore (y - 1) 12 := rfl
    have h2 := daysBefore_year (y - 1)
    have h3 : firstOfYear y = firstOfYear (y - 1) + 365 + leapAdj (y - 1) := by
      have := firstOfYear_succ (y - 1)
      simpa using this
    have h4 : daysBefore y 0 = 0 := rfl
    unfold extDayNumber
    omega
  · obtain ⟨m', rfl⟩ : ∃ m', m = m' + 1 := ⟨m - 1, by omega⟩
    have hp : prevYM y (m' + 1) = (y, m') := by
      unfold prevYM
      simp
    rw [hp]
    dsimp only
    have h2 : daysBefore y (m' + 1) = daysBefore y m' + monthLength y m' := rfl
    unfold extDayNumber
    omega

theorem extDayNumber_next (y : Int) (m : Nat) (hm : m < 12) (d : Int) :
    extDayNumber (nextYM y m).1 (nextYM y m).2 (d - monthLength y m)
      = extDayNumber y m d := by
  by_cases h0 : m = 11
  · subst h0
    have hp : nextYM y 11 = (y + 1, 0) := rfl
    rw [hp]
    dsimp only
    have h1 : daysBefore y 11 + monthLength y 11 = daysBefore y 12 := rfl
    have h2 := daysBefore_year y
    have h3 := firstOfYear_succ y
    have h4 : daysBefore (y + 1) 0 = 0 := rfl
    unfold extDayNumber
    omega
  · have hp : nextYM y m = (y, m + 1) := by
      unfold nextYM
      simp [h0]
    rw [hp]
    dsimp only
    have h2 : daysBefore y (m + 1) = daysBefore y m + monthLength y m := rfl
    unfold extDayNumber
    omega

theorem prevYM_month_lt (y : Int) (m : Nat) (hm : m < 12) : (prevYM y m).2 < 12 := by
  unfold prevYM
  split
  · simp
  · simp
    omega

theorem nextYM_month_lt (y : Int) (m : Nat) (hm : m < 12) : (nextYM y m).2 < 12 := by
  unfold nextYM
  split
  · simp
  · simp
    omega

theorem dayNumber_normDay (y : Int) (m : Nat) (d : Int) (hm : m < 12) :
    dayNumber (normDay y m d) = extDayNumber y m d := by
  induction y, m, d using normDay.induct with
  | case1 y m d hd ih =>
    rw [normDay, if_pos hd]
    rw [ih (prevYM_month_lt y m hm)]
    exact extDayNumber_prev y m hm d
  | case2 y m d hd hd2 ih =>
    rw [normDay, if_neg hd, if_pos hd2]
    rw [ih (nextYM_month_lt y m hm)]
    exact extDayNumber_next y m hm d
  | case3 y m d hd hd2 =>
    rw [normDay, if_neg hd, if_neg hd2]
    rfl

theorem normDay_valid (y : Int) (m : Nat) (d : Int) (hm : m < 12) :
    (normDay y m d).month < 12 ∧ 1 ≤ (normDay y m d).day ∧
      (normDay y m d).day ≤ monthLength (normDay y m d).year (normDay y m d).month := by
  induction y, m, d using normDay.induct with
  | case1 y m d hd ih =>
    rw [normDay, if_pos hd]
    exact ih (prevYM_month_lt y m hm)
  | case2 y m d hd hd2 ih =>
    rw [normDay, if_neg hd, if_pos hd2]
    exact ih (nextYM_month_lt y m hm)
  | case3 y m d hd hd2 =>
    rw [normDay, if_neg hd, if_neg hd2]
    dsimp only
    exact ⟨hm, by omega, by omega⟩

theorem normDay_self (y : Int) (m : Nat) (d : Int) (h1 : 1 ≤ d)
    (h2 : d ≤ monthLength y m) : normDay y m d = ⟨y, m, d⟩ := by
  rw [normDay, if_neg (by omega), if_neg (by omega)]

theorem prevYM_nextYM (y : Int) (m : Nat) (hm : m < 12) :
    prevYM (nextYM y m).1 (nextYM y m).2 = (y, m) := by
  by_cases h : m = 11
  · subst h
    unfold nextYM prevYM
    simp
  · unfold nextYM prevYM
    rw [if_neg h]
    dsimp only
    rw [if_neg (Nat.succ_ne_zero m)]
    simp

theorem nextYM_prevYM (y : Int) (m : Nat) (hm : m < 12) :
    nextYM (prevYM y m).1 (prevYM y m).2 = (y, m) := by
  by_cases h : m = 0
  · subst h
    unfold prevYM nextYM
    simp
  · unfold prevYM nextYM
    rw [if_neg h]
    dsimp only
    rw [if_neg (by omega : ¬ (m - 1 = 11))]
    simp
    omega

theorem extDayNumber_add (y : Int) (m : Nat) (d k : Int) :
    extDayNumber y m (d + k) = extDayNumber y m d + k := by
  unfold extDayNumber
  ring

theorem extDayNumber_sub (y : Int) (m : Nat) (d k : Int) :
    extDayNumber y m (d - k) = extDayNumber y m d - k := by
  unfold extDayNumber
  ring

theorem jsSetMonth_next (y : Int) (m : Nat) (d : Int) (hm : m < 12) :
    jsSetMonth ⟨y, m, d⟩ ((m : Int) + 1)
      = normDay (nextYM y m).1 (nextYM y m).2 d := by
  unfold jsSetMonth nextYM
  dsimp only
  by_cases h : m = 11
  · subst h
    norm_num
  · rw [if_neg h]
    have e1 : y + ((m : Int) + 1) / 12 = y := by omega
    have e2 : (((m : Int) + 1) % 12).toNat = m + 1 := by omega
    rw [e1, e2]

theorem jsSetMonth_prev (y : Int) (m : Nat) (d : Int) (hm : m < 12) :
    jsSetMonth ⟨y, m, d⟩ ((m : Int) - 1)
      = normDay (prevYM y m).1 (prevYM y m).2 d := by
  unfold jsSetMonth prevYM
  dsimp only
  by_cases h : m = 0
  · subst h
    have e1 : y + (((0:Nat) : Int) - 1) / 12 = y - 1 := by omega
    have e2 : ((((0:Nat) : Int) - 1) % 12).toNat = 11 := by omega
    rw [e1, e2]
    rfl
  · rw [if_neg h]
    have e1 : y + ((m : Int) - 1) / 12 = y := by omega
    have e2 : (((m : Int) - 1) % 12).toNat = m - 1 := by omega
    rw [e1, e2]

theorem jsSetDate_step_back (y : Int) (m : Nat) (d k : Int) (hm : m < 12)
    (hd1 : 1 ≤ d) (hd2 : d ≤ monthLength y m) (hk1 : 1 ≤ k) (hk2 : k ≤ 28) :
    normDay (normDay y m (d + k)).year (normDay y m (d + k)).month
      ((normDay y m (d + k)).day - k) = ⟨y, m, d⟩ := by
  by_cases hov : d + k ≤ monthLength y m
  · rw [normDay_self y m (d + k) (by omega) hov]
    dsimp only
    have e : d + k - k = d := by ring
    rw [e, normDay_self y m d hd1 hd2]
  · have hml := monthLength_bounds y m
    have hml2 := monthLength_bounds (nextYM y m).1 (nextYM y m).2
    have hR : normDay y m (d + k)
        = ⟨(nextYM y m).1, (nextYM y m).2, d + k - monthLength y m⟩ := by
      rw [normDay, if_neg (by omega), if_pos (by omega)]
      exact normDay_self _ _ _ (by omega) (by omega)
    rw [hR]
    dsimp only
    rw [normDay, if_pos (by omega), prevYM_nextYM y m hm]
    dsimp only
    have e : d + k - monthLength y m - k + monthLength y m = d := by ring
    rw [e, normDay_self y m d hd1 hd2]

/-- C6: for every current date and view, `handleNavigate 'NEXT'` (resp.
`'PREV'`) advances (resp. rewinds) the current date by exactly one
calendar month in month view (the day count moves by exactly the length
of the month being stepped over, and the day of month is preserved
whenever the target month has that day), by seven days in week view and
by three days in the work-week view; every other view leaves the date
unchanged; and `'TODAY'` sets the date to the current instant regardless
of the view. -/
theorem handleNavigate_step_sizes (view : CalView) (date now : CDate)
    (h : ValidDate date) :
    (view = CalView.month →
       dayNumber (handleNavigate view date now NavAction.NEXT)
           = dayNumber date + monthLength date.year date.month
       ∧ dayNumber (handleNavigate view date now NavAction.PREV)
           = dayNumber date
               - monthLength (prevYM date.year date.month).1 (prevYM date.year date.month).2
       ∧ (date.day ≤ monthLength (nextYM date.year date.month).1 (nextYM date.year date.month).2 →
            handleNavigate view date now NavAction.NEXT
              = ⟨(nextYM date.year date.month).1, (nextYM date.year date.month).2, date.day⟩)
       ∧ (date.day ≤ monthLength (prevYM date.year date.month).1 (prevYM date.year date.month).2 →
            handleNavigate view date now NavAction.PREV
              = ⟨(prevYM date.year date.month).1, (prevYM date.year date.month).2, date.day⟩))
  ∧ (view = CalView.week →
       dayNumber (handleNavigate view date now NavAction.NEXT) = dayNumber date + 7
       ∧ dayNumber (handleNavigate view date now NavAction.PREV) = dayNumber date - 7)
  ∧ (view = CalView.work_week →
       dayNumber (handleNavigate view date now NavAction.NEXT) = dayNumber date + 3
       ∧ dayNumber (handleNavigate view date now NavAction.PREV) = dayNumber date - 3)
  ∧ ((view = CalView.day ∨ view = CalView.agenda) →
       handleNavigate view date now NavAction.NEXT = date
       ∧ handleNavigate view date now NavAction.PREV = date)
  ∧ handleNavigate view date now NavAction.TODAY = now := by
  obtain ⟨y, m, d⟩ := date
  obtain ⟨hm, hd1, hd2⟩ := h
  dsimp only at hm hd1 hd2
  refine ⟨?_, ?_, ?_, ?_, rfl⟩
  · rintro rfl
    dsimp only
    refine ⟨?_, ?_, ?_, ?_⟩
    · show dayNumber (jsSetMonth ⟨y, m, d⟩ ((m : Int) + 1)) = _
      rw [jsSetMonth_next y m d hm]
      rw [dayNumber_normDay _ _ _ (nextYM_month_lt y m hm)]
      have h1 := extDayNumber_next y m hm (d + monthLength y m)
      have h2 := extDayNumber_add y m d (monthLength y m)
      have h3 : d + monthLength y m - monthLength y m = d := by ring
      rw [h3] at h1
      show _ = extDayNumber y m d + monthLength y m
      omega
    · show dayNumber (jsSetMonth ⟨y, m, d⟩ ((m : Int) - 1)) = _
      rw [jsSetMonth_prev y m d hm]
      rw [dayNumber_normDay _ _ _ (prevYM_month_lt y m hm)]
      have h1 := extDayNumber_prev y m hm d
      have h2 := extDayNumber_add (prevYM y m).1 (prevYM y m).2 d
        (monthLength (prevYM y m).1 (prevYM y m).2)
      show _ = extDayNumber y m d - _
      omega
    · intro hfit
      show jsSetMonth ⟨y, m, d⟩ ((m : Int) + 1) = _
      rw [jsSetMonth_next y m d hm]
      exact normDay_self _ _ _ (by omega) hfit
    · intro hfit
      show jsSetMonth ⟨y, m, d⟩ ((m : Int) - 1) = _
      rw [jsSetMonth_prev y m d hm]
      exact normDay_self _ _ _ (by omega) hfit
  · rintro rfl
    constructor
    · show dayNumber (jsSetDate ⟨y, m, d⟩ (d + 7)) = _
      unfold jsSetDate
      dsimp only
      rw [dayNumber_normDay _ _ _ hm, extDayNumber_add]
      rfl
    · show dayNumber (jsSetDate ⟨y, m, d⟩ (d - 7)) = _
      unfold jsSetDate
      dsimp only
      rw [dayNumber_normDay _ _ _ hm, extDayNumber_sub]
      rfl
  · rintro rfl
    constructor
    · show dayNumber (jsSetDate ⟨y, m, d⟩ (d + 3)) = _
      unfold jsSetDate
      dsimp only
      rw [dayNumber_normDay _ _ _ hm, extDayNumber_add]
      rfl
    · show dayNumber (jsSetDate ⟨y, m, d⟩ (d - 3)) = _
      unfold jsSetDate
      dsimp only
      rw [dayNumber_normDay _ _ _ hm, extDayNumber_sub]
      rfl
  · rintro (rfl | rfl) <;> exact ⟨rfl, rfl⟩

/-- Witness for C6 at January 15, 2025: stepping `NEXT` in week view
advances the day count by exactly 7. -/
theorem handleNavigate_step_sizes_witness :
    ValidDate ⟨2025, 0, 15⟩
      ∧ dayNumber (handleNavigate CalView.week ⟨2025, 0, 15⟩ ⟨2025, 5, 1⟩ NavAction.NEXT)
          = dayNumber ⟨2025, 0, 15⟩ + 7 :=
  ⟨by decide,
    ((handleNavigate_step_sizes CalView.week ⟨2025, 0, 15⟩ ⟨2025, 5, 1⟩ (by decide)).2.1 rfl).1⟩

/-- C7: `NEXT` followed by `PREV` returns to the original date exactly in
week view (7-day step) and in the work-week view (3-day step); the same
round trip holds for the month step whenever the day of month is at most
28 (the month-length edge cases at day 29–31 are excluded). -/
theorem handleNavigate_next_prev_roundtrip (date now now2 : CDate) (h : ValidDate date) :
    handleNavigate CalView.week
        (handleNavigate CalView.week date now NavAction.NEXT) now2 NavAction.PREV = date
  ∧ handleNavigate CalView.work_week
        (handleNavigate CalView.work_week date now NavAction.NEXT) now2 NavAction.PREV = date
  ∧ (date.day ≤ 28 →
      handleNavigate CalView.month
          (handleNavigate CalView.month date now NavAction.NEXT) now2 NavAction.PREV = date) := by
  obtain ⟨y, m, d⟩ := date
  obtain ⟨hm, hd1, hd2⟩ := h
  dsimp only at hm hd1 hd2
  refine ⟨?_, ?_, ?_⟩
  · show jsSetDate (jsSetDate ⟨y, m, d⟩ (d + 7)) ((jsSetDate ⟨y, m, d⟩ (d + 7)).day - 7) = _
    unfold jsSetDate
    dsimp only
    exact jsSetDate_step_back y m d 7 hm hd1 hd2 (by norm_num) (by norm_num)
  · show jsSetDate (jsSetDate ⟨y, m, d⟩ (d + 3)) ((jsSetDate ⟨y, m, d⟩ (d + 3)).day - 3) = _
    unfold jsSetDate
    dsimp only
    exact jsSetDate_step_back y m d 3 hm hd1 hd2 (by norm_num) (by norm_num)
  · intro hd28
    dsimp only at hd28
    have hml2 := monthLength_bounds (nextYM y m).1 (nextYM y m).2
    have hstep1 : handleNavigate CalView.month ⟨y, m, d⟩ now NavAction.NEXT
        = ⟨(nextYM y m).1, (nextYM y m).2, d⟩ := by
      show jsSetMonth ⟨y, m, d⟩ ((m : Int) + 1) = _
      rw [jsSetMonth_next y m d hm]
      exact normDay_self _ _ _ hd1 (by omega)
    rw [hstep1]
    show jsSetMonth ⟨(nextYM y m).1, (nextYM y m).2, d⟩ (((nextYM y m).2 : Int) - 1) = _
    rw [jsSetMonth_prev (nextYM y m).1 (nextYM y m).2 d (nextYM_month_lt y m hm)]
    rw [prevYM_nextYM y m hm]
    dsimp only
    exact normDay_self y m d hd1 hd2

/-- Witness for C7 at January 31, 2025 (a day where the week round trip
crosses a month boundary in both directions). -/
theorem handleNavigate_next_prev_roundtrip_witness :
    ValidDate ⟨2025, 0, 31⟩
      ∧ handleNavigate CalView.week
          (handleNavigate CalView.week ⟨2025, 0, 31⟩ ⟨2025, 5, 1⟩ NavAction.NEXT)
          ⟨2025, 5, 2⟩ NavAction.PREV = ⟨2025, 0, 31⟩ :=
  ⟨by decide,
    (handleNavigate_next_prev_roundtrip ⟨2025, 0, 31⟩ ⟨2025, 5, 1⟩ ⟨2025, 5, 2⟩ (by decide)).1⟩

/-- C8 (amended): when both recorded coordinates are nonzero (a zero
coordinate is JavaScript-falsy and makes the handler bail out), the
recognizer dispatches exactly one `NEXT` for a leftward displacement of
magnitude above 50, exactly one `PREV` for a rightward one, and nothing
when the magnitude is at most 50.  The displacement is
`touchStart - touchEnd`; a leftward swipe makes it positive. -/
theorem handleTouchEnd_threshold (a b : Int) (ha : a ≠ 0) (hb : b ≠ 0) :
    (a - b > 50 → (handleTouchEnd ⟨some a, some b⟩).1 = [NavAction.NEXT])
  ∧ (a - b < -50 → (handleTouchEnd ⟨some a, some b⟩).1 = [NavAction.PREV])
  ∧ (-50 ≤ a - b → a - b ≤ 50 → (handleTouchEnd ⟨some a, some b⟩).1 = []) := by
  have hc : (jsFalsyNum (some a) || jsFalsyNum (some b)) = false := by
    simp [jsFalsyNum, ha, hb]
  have hrw : handleTouchEnd ⟨some a, some b⟩
      = ((if a - b > 50 then [NavAction.NEXT] else [])
          ++ (if a - b < -50 then [NavAction.PREV] else []),
          (⟨none, none⟩ : TouchState)) := by
    unfold handleTouchEnd
    dsimp only
    rw [hc]
    simp [Option.getD]
  rw [hrw]
  refine ⟨?_, ?_, ?_⟩
  · intro h1
    rw [if_pos h1, if_neg (by omega)]
    rfl
  · intro h1
    rw [if_neg (by omega), if_pos h1]
    rfl
  · intro h1 h2
    rw [if_neg (by omega), if_neg (by omega)]
    rfl

/-- Witness for C8: a leftward displacement of 60 px (start 100, end 40)
dispatches exactly one `NEXT`. -/
theorem handleTouchEnd_threshold_witness :
    (handleTouchEnd ⟨some 100, some 40⟩).1 = [NavAction.NEXT] :=
  (handleTouchEnd_threshold 100 40 (by decide) (by decide)).1 (by decide)

/-- C8 counterexample: with a recorded touch-start at x = 0 and a
touch-move to x = 60 the displacement is 60 px rightward, yet the handler
dispatches nothing — the claim's `PREV` dispatch fails because the `0`
coordinate is falsy and triggers the early return. -/
theorem handleTouchEnd_threshold_cex :
    (0 : Int) - 60 < -50
      ∧ (handleTouchEnd ⟨some 0, some 60⟩).1 = [] := by
  constructor
  · decide
  · rfl

/-- C9 (amended): the touch coordinates are reset to the unset state by
`handleTouchEnd` exactly when both were recorded and nonzero; when either
coordinate is unset (or zero), the early return leaves the state
unchanged. -/
theorem handleTouchEnd_reset (s : TouchState) :
    (jsFalsyNum s.touchStart = false → jsFalsyNum s.touchEnd = false →
       (handleTouchEnd s).2 = ⟨none, none⟩)
  ∧ ((jsFalsyNum s.touchStart = true ∨ jsFalsyNum s.touchEnd = true) →
       (handleTouchEnd s).2 = s) := by
  constructor
  · intro h1 h2
    unfold handleTouchEnd
    rw [h1, h2]
    rfl
  · intro h1
    unfold handleTouchEnd
    rcases h1 with h1 | h1 <;> rw [h1] <;> simp

/-- Witness for C9: with both coordinates recorded and nonzero the state
is reset. -/
theorem handleTouchEnd_reset_witness :
    (handleTouchEnd ⟨some 10, some 20⟩).2 = ⟨none, none⟩ :=
  (handleTouchEnd_reset ⟨some 10, some 20⟩).1 (by decide) (by decide)

/-- C9 counterexample: with no recorded start and a recorded move to
x = 100, the handler leaves the move coordinate in place instead of
resetting it. -/
theorem handleTouchEnd_reset_cex :
    (handleTouchEnd ⟨none, some 100⟩).2 = ⟨none, some 100⟩
      ∧ (⟨none, some 100⟩ : TouchState) ≠ ⟨none, none⟩ := by
  constructor
  · rfl
  · decide

/-- C10: `toggleCalendar` negates only the `enabled` field of the sources
whose id matches and `toggleDetails` negates only their `showDetails`
field; every other field and every non-matching source are unchanged,
lengths and order are preserved, and with no matching id both lists are
unchanged. -/
theorem toggle_ops_frame (cid : Str) (cals : List CalendarConfig) :
    (toggleCalendar cid cals).length = cals.length
  ∧ (toggleDetails cid cals).length = cals.length
  ∧ (∀ (i : Nat) (cal : CalendarConfig), cals[i]? = some cal →
       (cal.id = cid →
          (toggleCalendar cid cals)[i]? = some { cal with enabled := !cal.enabled }
          ∧ (toggleDetails cid cals)[i]? = some { cal with showDetails := !cal.showDetails })
       ∧ (cal.id ≠ cid →
          (toggleCalendar cid cals)[i]? = some cal
          ∧ (toggleDetails cid cals)[i]? = some cal))
  ∧ ((∀ cal ∈ cals, cal.id ≠ cid) →
       toggleCalendar cid cals = cals ∧ toggleDetails cid cals = cals) := by
  refine ⟨by simp [toggleCalendar], by simp [toggleDetails], ?_, ?_⟩
  · intro i cal hi
    constructor
    · intro hid
      constructor
      · simp [toggleCalendar, List.getElem?_map, hi, hid]
      · simp [toggleDetails, List.getElem?_map, hi, hid]
    · intro hid
      constructor
      · simp [toggleCalendar, List.getElem?_map, hi, hid]
      · simp [toggleDetails, List.getElem?_map, hi, hid]
  · intro hall
    constructor
    · calc toggleCalendar cid cals
          = cals.map id := by
            apply List.map_congr_left
            intro cal hcal
            simp [hall cal hcal]
        _ = cals := List.map_id cals
    · calc toggleDetails cid cals
          = cals.map id := by
            apply List.map_congr_left
            intro cal hcal
            simp [hall cal hcal]
        _ = cals := List.map_id cals

/-- Witness for C10: toggling id `"a"` in a two-source list flips exactly
the `enabled` flag of the matching source. -/
theorem toggle_ops_frame_witness :
    toggleCalendar "a".data
        [⟨"a".data, "u".data, "#4F46E5".data, "A".data, true, false⟩,
         ⟨"b".data, "v".data, "#4F46E5".data, "B".data, true, true⟩]
      = [⟨"a".data, "u".data, "#4F46E5".data, "A".data, false, false⟩,
         ⟨"b".data, "v".data, "#4F46E5".data, "B".data, true, true⟩] := by
  have h := (toggle_ops_frame "a".data
      [⟨"a".data, "u".data, "#4F46E5".data, "A".data, true, false⟩,
       ⟨"b".data, "v".data, "#4F46E5".data, "B".data, true, true⟩]).2.2.1
  have h0 := ((h 0 ⟨"a".data, "u".data, "#4F46E5".data, "A".data, true, false⟩ rfl).1 rfl).1
  have h1 := ((h 1 ⟨"b".data, "v".data, "#4F46E5".data, "B".data, true, true⟩ rfl).2 (by decide)).1
  have hlen := (toggle_ops_frame "a".data
      [⟨"a".data, "u".data, "#4F46E5".data, "A".data, true, false⟩,
       ⟨"b".data, "v".data, "#4F46E5".data, "B".data, true, true⟩]).1
  apply List.ext_getElem?
  intro i
  match i with
  | 0 => exact h0.trans (by decide)
  | 1 => exact h1.trans (by decide)
  | (n + 2) =>
    rw [List.getElem?_eq_none (by simp [hlen]), List.getElem?_eq_none (by simp)]

/-- C1 (amended): `fetchCalendarEvents` maps each parsed component through
`mapVevent`; with `showDetails = false` the event's title is the source's
configured title and no description/location is attached; with
`showDetails = true` the title is the component's summary and the
description/location fields are present on the event exactly when they
are present in the component *with a non-empty value* (the source's
truthiness test drops an empty string); `allDay` equals the component's
date-only flag. -/
theorem fetchCalendarEvents_field_mapping (calendar : CalendarConfig)
    (vevents : List VEvent) :
    fetchCalendarEvents calendar (Except.ok vevents) = vevents.map (mapVevent calendar)
  ∧ ∀ v : VEvent,
      (calendar.showDetails = false →
         (mapVevent calendar v).title = calendar.title
         ∧ (mapVevent calendar v).description = none
         ∧ (mapVevent calendar v).location = none)
      ∧ (calendar.showDetails = true →
         (mapVevent calendar v).title = v.summary
         ∧ (∀ s : Str, (mapVevent calendar v).description = some s
              ↔ (v.description = some s ∧ s ≠ []))
         ∧ (∀ s : Str, (mapVevent calendar v).location = some s
              ↔ (v.location = some s ∧ s ≠ [])))
      ∧ (mapVevent calendar v).allDay = v.startIsDate
      ∧ (mapVevent calendar v).start = v.startDate
      ∧ (mapVevent calendar v).endTime = v.endDate
      ∧ (mapVevent calendar v).calendarId = calendar.id := by
  constructor
  · rfl
  · intro v
    refine ⟨?_, ?_, ?_, ?_, ?_, ?_⟩
    · intro hsd
      simp [mapVevent, hsd]
    · intro hsd
      refine ⟨by simp [mapVevent, hsd], ?_, ?_⟩
      · intro s
        cases hv : v.description with
        | none => simp [mapVevent, hsd, jsStrTruthy, hv]
        | some t =>
          by_cases ht : t = []
          · subst ht
            simp [mapVevent, hsd, jsStrTruthy, hv]
          · have hie : t.isEmpty = false := by
              cases t
              · exact absurd rfl ht
              · rfl
            have hdesc : (mapVevent calendar v).description = some t := by
              simp [mapVevent, hsd, jsStrTruthy, hv, hie]
            rw [hdesc]
            constructor
            · intro h
              rw [← Option.some_inj.mp h]
              exact ⟨rfl, ht⟩
            · rintro ⟨h1, h2⟩
              exact h1
      · intro s
        cases hv : v.location with
        | none => simp [mapVevent, hsd, jsStrTruthy, hv]
        | some t =>
          by_cases ht : t = []
          · subst ht
            simp [mapVevent, hsd, jsStrTruthy, hv]
          · have hie : t.isEmpty = false := by
              cases t
              · exact absurd rfl ht
              · rfl
            have hloc : (mapVevent calendar v).location = some t := by
              simp [mapVevent, hsd, jsStrTruthy, hv, hie]
            rw [hloc]
            constructor
            · intro h
              rw [← Option.some_inj.mp h]
              exact ⟨rfl, ht⟩
            · rintro ⟨h1, h2⟩
              exact h1
    · unfold mapVevent
      dsimp only
      split <;> rfl
    · unfold mapVevent
      dsimp only
      split <;> rfl
    · unfold mapVevent
      dsimp only
      split <;> rfl
    · unfold mapVevent
      dsimp only
      split <;> rfl

/-- Witness for C1: a `showDetails = false` source renames the event to
the source's configured title. -/
theorem fetchCalendarEvents_field_mapping_witness :
    (mapVevent ⟨"a".data, "u".data, "#4F46E5".data, "Occupied".data, true, false⟩
        ⟨"Dentist".data, none, none, 100, 200, false⟩).title = "Occupied".data :=
  (((fetchCalendarEvents_field_mapping
      ⟨"a".data, "u".data, "#4F46E5".data, "Occupied".data, true, false⟩ []).2
      ⟨"Dentist".data, none, none, 100, 200, false⟩).1 rfl).1

/-- C1 counterexample: a component of a `showDetails = true` source whose
`DESCRIPTION` property is present but empty — the claim says the event's
description field is then present, but the truthiness test drops it. -/
theorem fetchCalendarEvents_field_mapping_cex :
    (⟨"Meeting".data, some [], some "Room 1".data, 100, 200, false⟩ : VEvent).description.isSome = true
      ∧ (mapVevent ⟨"a".data, "u".data, "#4F46E5".data, "A".data, true, true⟩
          ⟨"Meeting".data, some [], some "Room 1".data, 100, 200, false⟩).description = none := by
  constructor
  · rfl
  · rfl

theorem promiseAll_map_ok {α β : Type} (f : β → α) (l : List β) :
    promiseAll (l.map (fun x => Except.ok (f x))) = Except.ok (l.map f) := by
  induction l with
  | nil => rfl
  | cons x xs ih => simp only [List.map_cons, promiseAll, ih]

theorem publishedEvents_eq (cals : List CalendarConfig)
    (outcomes : CalendarConfig → Except Str (List VEvent)) :
    publishedEvents cals outcomes
      = ((cals.filter (fun c => c.enabled)).map
          (fun c => fetchCalendarEvents c (outcomes c))).flatten := by
  unfold publishedEvents fetchAllCalendars
  rw [promiseAll_map_ok]

theorem flatten_filter_isOk (outcomes : CalendarConfig → Except Str (List VEvent))
    (l : List CalendarConfig) :
    ((l.filter (fun c => (outcomes c).isOk)).map
        (fun c => fetchCalendarEvents c (outcomes c))).flatten
      = (l.map (fun c => fetchCalendarEvents c (outcomes c))).flatten := by
  induction l with
  | nil => rfl
  | cons x xs ih =>
    rw [List.filter_cons]
    cases hx : outcomes x with
    | ok v =>
      rw [if_pos (show (Except.ok v : Except Str (List VEvent)).isOk = true from rfl)]
      simp only [List.map_cons, List.flatten_cons, ih]
    | error e =>
      rw [if_neg (fun h => Bool.noConfusion h)]
      simp only [List.map_cons, List.flatten_cons]
      have h0 : fetchCalendarEvents x (outcomes x) = [] := by
        rw [hx]
        rfl
      rw [h0, List.nil_append, ih]

/-- C2: the aggregation never rejects: it resolves with the concatenation
of the per-source event lists of the enabled sources (first conjunct); a
source whose fetch or parse failed contributes the empty event list
(second conjunct); hence the published list equals exactly the
concatenation of the successful sources' event lists (third conjunct). -/
theorem fetchAllCalendars_fault_tolerant (cals : List CalendarConfig)
    (outcomes : CalendarConfig → Except Str (List VEvent)) :
    fetchAllCalendars cals outcomes
        = Except.ok (((cals.filter (fun c => c.enabled)).map
            (fun c => fetchCalendarEvents c (outcomes c))).flatten)
  ∧ (∀ c e, outcomes c = Except.error e → fetchCalendarEvents c (outcomes c) = [])
  ∧ publishedEvents cals outcomes
      = (((cals.filter (fun c => c.enabled)).filter (fun c => (outcomes c).isOk)).map
          (fun c => fetchCalendarEvents c (outcomes c))).flatten := by
  refine ⟨?_, ?_, ?_⟩
  · unfold fetchAllCalendars
    rw [promiseAll_map_ok]
  · intro c e h
    simp [fetchCalendarEvents, h]
  · rw [publishedEvents_eq, flatten_filter_isOk]

/-- Witness for C2: source `a` succeeds with one event, source `b`'s fetch
rejects; the aggregation resolves and publishes exactly `a`'s events. -/
theorem fetchAllCalendars_fault_tolerant_witness :
    fetchCalendarEvents ⟨"b".data, "v".data, "#4F46E5".data, "B".data, true, false⟩
        (Except.error "network".data) = []
  ∧ publishedEvents
        [⟨"a".data, "u".data, "#4F46E5".data, "A".data, true, false⟩,
         ⟨"b".data, "v".data, "#4F46E5".data, "B".data, true, false⟩]
        (fun c => if c.id = "a".data
          then Except.ok [⟨"S".data, none, none, 1, 2, false⟩]
          else Except.error "network".data)
      = [⟨"A".data, none, none, 1, 2, false, "a".data⟩] := by
  have h := fetchAllCalendars_fault_tolerant
      [⟨"a".data, "u".data, "#4F46E5".data, "A".data, true, false⟩,
       ⟨"b".data, "v".data, "#4F46E5".data, "B".data, true, false⟩]
      (fun c => if c.id = "a".data
        then Except.ok [⟨"S".data, none, none, 1, 2, false⟩]
        else Except.error "network".data)
  refine ⟨?_, ?_⟩
  · exact h.2.1 ⟨"b".data, "v".data, "#4F46E5".data, "B".data, true, false⟩
      "network".data rfl
  · exact h.2.2.trans (by decide)

theorem events_from_fetch_have_id (c : CalendarConfig)
    (o : Except Str (List VEvent)) :
    ∀ e ∈ fetchCalendarEvents c o, e.calendarId = c.id := by
  intro e he
  cases o with
  | ok vs =>
    obtain ⟨v, hv, rfl⟩ := List.mem_map.mp he
    unfold mapVevent
    dsimp only
    split <;> rfl
  | error err => simp [fetchCalendarEvents] at he

/-- C4: every event published by a completed aggregation cycle carries the
id of an enabled source of that cycle's source list; when ids are unique
(the intended configuration shape) no event carries a disabled source's
id. -/
theorem publishedEvents_only_enabled (cals : List CalendarConfig)
    (outcomes : CalendarConfig → Except Str (List VEvent)) :
    (∀ e ∈ publishedEvents cals outcomes,
        ∃ c ∈ cals, c.enabled = true ∧ c.id = e.calendarId)
  ∧ ((cals.map (fun c => c.id)).Nodup →
      ∀ e ∈ publishedEvents cals outcomes,
        ∀ c ∈ cals, c.enabled = false → c.id ≠ e.calendarId) := by
  have hmem : ∀ e ∈ publishedEvents cals outcomes,
      ∃ c ∈ cals, c.enabled = true ∧ c.id = e.calendarId := by
    intro e he
    rw [publishedEvents_eq] at he
    obtain ⟨l, hl, hel⟩ := List.mem_flatten.mp he
    obtain ⟨c, hc, rfl⟩ := List.mem_map.mp hl
    obtain ⟨hcmem, hcen⟩ := List.mem_filter.mp hc
    exact ⟨c, hcmem, hcen, (events_from_fetch_have_id c (outcomes c) e hel).symm⟩
  refine ⟨hmem, ?_⟩
  intro hnodup e he c hc hdis heq
  obtain ⟨c', hc', hen', hid'⟩ := hmem e he
  have : c = c' := List.inj_on_of_nodup_map hnodup hc hc' (heq.trans hid'.symm)
  rw [this, hen'] at hdis
  cases hdis

/-- Witness for C4: with source `a` enabled and source `b` disabled, the
published list is exactly `a`'s events and the disabled id `b` does not
occur. -/
theorem publishedEvents_only_enabled_witness :
    "b".data ≠
      (⟨"A".data, none, none, 1, 2, false, "a".data⟩ : CalendarEvent).calendarId :=
  (publishedEvents_only_enabled
      [⟨"a".data, "u".data, "#4F46E5".data, "A".data, true, false⟩,
       ⟨"b".data, "v".data, "#4F46E5".data, "B".data, false, false⟩]
      (fun c => if c.id = "a".data
        then Except.ok [⟨"S".data, none, none, 1, 2, false⟩]
        else Except.ok [⟨"T".data, none, none, 3, 4, false⟩])).2
    (by decide)
    ⟨"A".data, none, none, 1, 2, false, "a".data⟩
    (by rw [publishedEvents_eq]; decide)
    ⟨"b".data, "v".data, "#4F46E5".data, "B".data, false, false⟩
    (by decide)
    rfl

theorem foldl_set_length {α : Type} (tasks : List (List α)) (order : List Nat)
    (init : List (Option (List α))) :
    (order.foldl (fun slots i => slots.set i (some (tasks.getD i []))) init).length
      = init.length := by
  induction order generalizing init with
  | nil => rfl
  | cons i rest ih =>
    rw [List.foldl_cons, ih, List.length_set]

theorem foldl_set_getElem {α : Type} (tasks : List (List α)) (order : List Nat)
    (init : List (Option (List α))) (j : Nat) (hj : j < init.length)
    (hinit : init[j]? = some (some (tasks.getD j [])) ∨ j ∈ order) :
    (order.foldl (fun slots i => slots.set i (some (tasks.getD i []))) init)[j]?
      = some (some (tasks.getD j [])) := by
  induction order generalizing init with
  | nil =>
    rw [List.foldl_nil]
    cases hinit with
    | inl h => exact h
    | inr h => exact absurd h (List.not_mem_nil j)
  | cons i rest ih =>
    rw [List.foldl_cons]
    apply ih (init.set i (some (tasks.getD i [])))
    · rw [List.length_set]
      exact hj
    · cases hinit with
      | inl h =>
        by_cases hij : i = j
        · subst hij
          left
          rw [List.getElem?_set_self hj]
        · left
          rw [List.getElem?_set_ne hij]
          exact h
      | inr h =>
        rcases List.mem_cons.mp h with rfl | hr
        · left
          rw [List.getElem?_set_self hj]
        · right
          exact hr

theorem promiseAllJoin_complete {α : Type} (tasks : List (List α)) (order : List Nat)
    (hcov : ∀ i, i < tasks.length → i ∈ order) :
    promiseAllJoin tasks order = tasks.map some := by
  apply List.ext_getElem?
  intro j
  unfold promiseAllJoin
  by_cases hj : j < tasks.length
  · rw [foldl_set_getElem tasks order _ j
      (by rw [List.length_replicate]; exact hj) (Or.inr (hcov j hj))]
    rw [List.getElem?_map, List.getElem?_eq_getElem hj]
    rw [List.getD_eq_getElem?_getD, List.getElem?_eq_getElem hj]
    rfl
  · have h1 : (order.foldl (fun slots i => slots.set i (some (tasks.getD i [])))
        (List.replicate tasks.length none)).length ≤ j := by
      rw [foldl_set_length, List.length_replicate]
      omega
    have h2 : (tasks.map some).length ≤ j := by
      rw [List.length_map]
      omega
    rw [List.getElem?_eq_none h1, List.getElem?_eq_none h2]

theorem reduceOption_map_some {α : Type} (l : List α) :
    (l.map some).reduceOption = l := by
  induction l with
  | nil => rfl
  | cons x xs ih => simp [List.reduceOption, ih]

/-- C5: for every source list and every completion order under which all
of the enabled sources' fetches complete, the event array assembled by
the `Promise.all` join — each completion writing its result into its own
slot — equals the per-source event lists concatenated in source-list
order, i.e. the published list; the completion order is irrelevant. -/
theorem fetchAllCalendars_completion_order_independent
    (cals : List CalendarConfig)
    (outcomes : CalendarConfig → Except Str (List VEvent)) (order : List Nat)
    (hcov : ∀ i, i < ((cals.filter (fun c => c.enabled)).map
        (fun c => fetchCalendarEvents c (outcomes c))).length → i ∈ order) :
    ((promiseAllJoin ((cals.filter (fun c => c.enabled)).map
        (fun c => fetchCalendarEvents c (outcomes c))) order).reduceOption).flatten
      = publishedEvents cals outcomes := by
  rw [promiseAllJoin_complete _ order hcov, reduceOption_map_some, publishedEvents_eq]

/-- Witness for C5: the two-source scenario under both completion orders
(`A` first / `B` first) yields the same merged list of length 2 with the
titles `Lunch` and `Occupied` in source-list order. -/
theorem fetchAllCalendars_completion_order_independent_witness :
    (((promiseAllJoin ((scenarioCals.filter (fun c => c.enabled)).map
          (fun c => fetchCalendarEvents c (scenarioOutcomes c))) [0, 1]).reduceOption).flatten).map
        (fun e => e.title) = ["Lunch".data, "Occupied".data]
  ∧ (((promiseAllJoin ((scenarioCals.filter (fun c => c.enabled)).map
          (fun c => fetchCalendarEvents c (scenarioOutcomes c))) [1, 0]).reduceOption).flatten).map
        (fun e => e.title) = ["Lunch".data, "Occupied".data]
  ∧ (publishedEvents scenarioCals scenarioOutcomes).length = 2 := by
  have h1 := fetchAllCalendars_completion_order_independent scenarioCals scenarioOutcomes
    [0, 1] (by decide)
  have h2 := fetchAllCalendars_completion_order_independent scenarioCals scenarioOutcomes
    [1, 0] (by decide)
  refine ⟨?_, ?_, ?_⟩
  · rw [h1]
    decide
  · rw [h2]
    decide
  · decide

theorem replaceFirst_cons_self (c : Char) (pat rest : Str) :
    replaceFirst (c :: pat) ((c :: pat) ++ rest) = rest := by
  have hpre : (c :: pat).isPrefixOf (c :: (pat ++ rest)) = true :=
    List.isPrefixOf_iff_prefix.mpr ⟨rest, rfl⟩
  show replaceFirst (c :: pat) (c :: (pat ++ rest)) = rest
  unfold replaceFirst
  rw [if_pos hpre]
  exact List.drop_left (c :: pat) rest

theorem replaceFirst_calKeyHead (s : Str) :
    replaceFirst calKeyHead (calKeyHead ++ s) = s := by
  have h : calKeyHead = 'R' :: "EACT_APP_CALENDAR_".data := rfl
  rw [h]
  exact replaceFirst_cons_self 'R' "EACT_APP_CALENDAR_".data s

theorem replaceFirst_urlTail (n : Str) (h : ¬ urlKeyTail <:+: n) :
    replaceFirst urlKeyTail (n ++ urlKeyTail) = n := by
  induction n with
  | nil => rfl
  | cons c t ih =>
    have hnt : ¬ urlKeyTail <:+: t := by
      intro hx
      obtain ⟨s, u, hsu⟩ := hx
      exact h ⟨c :: s, u, by rw [← hsu]; rfl⟩
    show replaceFirst urlKeyTail (c :: (t ++ urlKeyTail)) = c :: t
    unfold replaceFirst
    by_cases hp : urlKeyTail.isPrefixOf (c :: (t ++ urlKeyTail)) = true
    · exfalso
      have hpre : urlKeyTail <+: c :: (t ++ urlKeyTail) :=
        List.isPrefixOf_iff_prefix.mp hp
      rcases t with _ | ⟨a, _ | ⟨b, _ | ⟨d, t⟩⟩⟩
      · rw [show urlKeyTail = '_' :: 'U' :: 'R' :: 'L' :: [] from rfl] at hpre
        simp only [List.nil_append] at hpre
        obtain ⟨h1, hpre⟩ := List.cons_prefix_cons.mp hpre
        obtain ⟨h2, hpre⟩ := List.cons_prefix_cons.mp hpre
        exact absurd h2 (by decide)
      · rw [show urlKeyTail = '_' :: 'U' :: 'R' :: 'L' :: [] from rfl] at hpre
        simp only [List.cons_append, List.nil_append] at hpre
        obtain ⟨h1, hpre⟩ := List.cons_prefix_cons.mp hpre
        obtain ⟨h2, hpre⟩ := List.cons_prefix_cons.mp hpre
        obtain ⟨h3, hpre⟩ := List.cons_prefix_cons.mp hpre
        exact absurd h3 (by decide)
      · rw [show urlKeyTail = '_' :: 'U' :: 'R' :: 'L' :: [] from rfl] at hpre
        simp only [List.cons_append, List.nil_append] at hpre
        obtain ⟨h1, hpre⟩ := List.cons_prefix_cons.mp hpre
        obtain ⟨h2, hpre⟩ := List.cons_prefix_cons.mp hpre
        obtain ⟨h3, hpre⟩ := List.cons_prefix_cons.mp hpre
        obtain ⟨h4, hpre⟩ := List.cons_prefix_cons.mp hpre
        exact absurd h4 (by decide)
      · have hpre2 : urlKeyTail <+: (c :: a :: b :: d :: t) := by
          apply List.prefix_of_prefix_length_le hpre
            (List.prefix_append (c :: a :: b :: d :: t) urlKeyTail)
          simp [urlKeyTail]
        obtain ⟨u, hu⟩ := hpre2
        exact h ⟨[], u, by rw [← hu]; rfl⟩
    · rw [if_neg hp]
      rw [ih hnt]

theorem jsOr_some_nilDefault (v : Str) : jsOr (some v) [] = v := by
  show (if v.isEmpty then [] else v) = v
  split
  · rename_i hv
    exact (List.isEmpty_iff.mp hv).symm
  · rfl

theorem mkUrlKey_inj (a b : Str) (h : mkUrlKey a = mkUrlKey b) : a = b := by
  unfold mkUrlKey at h
  have h1 : calKeyHead ++ a = calKeyHead ++ b := List.append_cancel_right h
  exact List.append_cancel_left h1

theorem lookupEnv_cons (p : Str × Str) (env : List (Str × Str)) (k : Str) :
    lookupEnv (p :: env) k = if p.1 == k then some p.2 else lookupEnv env k := by
  by_cases hb : (p.1 == k) = true
  · simp [lookupEnv, List.find?_cons_of_pos, hb]
  · simp [lookupEnv, List.find?_cons_of_neg, hb]

theorem lookupEnv_none (env : List (Str × Str)) (k : Str)
    (h : ∀ p ∈ env, p.1 ≠ k) : lookupEnv env k = none := by
  unfold lookupEnv
  rw [List.find?_eq_none.mpr ?hnone]
  · rfl
  case hnone =>
    intro x hx
    simp [h x hx]

theorem mkUrlKey_ne_sibling (n m tail2 : Str) (ch : Char)
    (hlast : tail2.getLast? = some ch) (hch : ch ≠ 'L') :
    mkUrlKey m ≠ calKeyHead ++ n ++ tail2 := by
  intro he
  unfold mkUrlKey at he
  have h3 := congrArg List.getLast? he
  simp only [List.getLast?_append] at h3
  rw [hlast, show urlKeyTail.getLast? = some 'L' from rfl] at h3
  simp [Option.or] at h3
  exact hch h3.symm

theorem lookupEnv_mkUrlEnv_self (entries : List (Str × Str))
    (hnodup : (entries.map Prod.fst).Nodup) (p : Str × Str) (hp : p ∈ entries) :
    lookupEnv (mkUrlEnv entries) (mkUrlKey p.1) = some p.2 := by
  induction entries with
  | nil => cases hp
  | cons q rest ih =>
    rw [show mkUrlEnv (q :: rest) = (mkUrlKey q.1, q.2) :: mkUrlEnv rest from rfl]
    rw [lookupEnv_cons]
    rcases List.mem_cons.mp hp with rfl | hpr
    · rw [if_pos (by simp)]
    · have hq : q.1 ≠ p.1 := by
        intro he
        apply (List.nodup_cons.mp hnodup).1
        rw [he]
        exact List.mem_map_of_mem Prod.fst hpr
      rw [if_neg ?hne]
      · exact ih (List.nodup_cons.mp hnodup).2 hpr
      case hne =>
        intro hb
        exact hq (mkUrlKey_inj q.1 p.1 (by simpa using hb))

theorem lookupEnv_mkUrlEnv_sibling (entries : List (Str × Str)) (n tail2 : Str)
    (ch : Char) (hlast : tail2.getLast? = some ch) (hch : ch ≠ 'L') :
    lookupEnv (mkUrlEnv entries) (calKeyHead ++ n ++ tail2) = none := by
  apply lookupEnv_none
  intro q hq
  obtain ⟨r, hr, rfl⟩ := List.mem_map.mp hq
  exact mkUrlKey_ne_sibling n r.1 tail2 ch hlast hch

theorem buildConfig_mkUrlEnv (entries : List (Str × Str))
    (hnodup : (entries.map Prod.fst).Nodup)
    (p : Str × Str) (hp : p ∈ entries) (hwf : WellFormedName p.1) :
    buildConfig (mkUrlEnv entries) (mkUrlKey p.1) = some (defaultConfig p) := by
  obtain ⟨hne, hinf⟩ := hwf
  have hbase : replaceFirst urlKeyTail (replaceFirst calKeyHead (mkUrlKey p.1)) = p.1 := by
    rw [show mkUrlKey p.1 = calKeyHead ++ (p.1 ++ urlKeyTail) from by
      unfold mkUrlKey
      rw [List.append_assoc]]
    rw [replaceFirst_calKeyHead]
    exact replaceFirst_urlTail p.1 hinf
  unfold buildConfig
  rw [if_pos ?hcond]
  case hcond =>
    rw [Bool.and_eq_true]
    constructor
    · exact List.isPrefixOf_iff_prefix.mpr
        ⟨p.1 ++ urlKeyTail, (List.append_assoc calKeyHead p.1 urlKeyTail).symm⟩
    · exact List.isSuffixOf_iff_suffix.mpr ⟨calKeyHead ++ p.1, rfl⟩
  dsimp only
  rw [hbase]
  rw [lookupEnv_mkUrlEnv_self entries hnodup p hp]
  rw [lookupEnv_mkUrlEnv_sibling entries p.1 "_COLOR".data 'R' rfl (by decide)]
  rw [lookupEnv_mkUrlEnv_sibling entries p.1 "_TITLE".data 'E' rfl (by decide)]
  rw [lookupEnv_mkUrlEnv_sibling entries p.1 "_SHOW_DETAILS".data 'S' rfl (by decide)]
  rw [jsOr_some_nilDefault]
  rfl

theorem filterMap_eq_map_of_some {α β : Type} (f : α → Option β) (g : α → β)
    (l : List α) (h : ∀ x ∈ l, f x = some (g x)) : l.filterMap f = l.map g := by
  induction l with
  | nil => rfl
  | cons x xs ih =>
    rw [List.filterMap_cons, h x (List.mem_cons_self x xs), List.map_cons,
      ih (fun y hy => h y (List.mem_cons_of_mem x hy))]

/-- C3 (amended): a configuration of N well-formed named URL entries
resolves to exactly N `CalendarConfig` records in configuration order;
each record defaults to color `#4F46E5`, the name segment as title and
`showDetails = false` when the optional sibling keys are absent, its id
is the lower-cased name segment, and the ids are pairwise distinct
whenever the lower-cased name segments are; entries whose lower-cased
names collide produce several records with the same id (no
deduplication, so there is no last-seen-wins collapse). -/
theorem getCalendarConfigs_resolves (entries : List (Str × Str))
    (hwf : ∀ p ∈ entries, WellFormedName p.1)
    (hnodup : (entries.map Prod.fst).Nodup) :
    getCalendarConfigs (mkUrlEnv entries) = entries.map defaultConfig
  ∧ (getCalendarConfigs (mkUrlEnv entries)).length = entries.length
  ∧ ((entries.map (fun p => p.1.map Char.toLower)).Nodup →
      ((getCalendarConfigs (mkUrlEnv entries)).map (fun c => c.id)).Nodup) := by
  have hmain : getCalendarConfigs (mkUrlEnv entries) = entries.map defaultConfig := by
    unfold getCalendarConfigs
    have hkeys : (mkUrlEnv entries).map Prod.fst
        = entries.map (fun p => mkUrlKey p.1) := by
      unfold mkUrlEnv
      rw [List.map_map]
      rfl
    rw [hkeys, List.filterMap_map]
    apply filterMap_eq_map_of_some
    intro p hp
    exact buildConfig_mkUrlEnv entries hnodup p hp (hwf p hp)
  refine ⟨hmain, ?_, ?_⟩
  · rw [hmain, List.length_map]
  · intro hids
    rw [hmain, List.map_map]
    exact hids


/-- Witness for C3: a single URL-only entry `FOO` resolves to one record
with all defaults applied. -/
theorem getCalendarConfigs_resolves_witness :
    getCalendarConfigs (mkUrlEnv [("FOO".data, "u".data)])
      = [⟨"foo".data, "u".data, "#4F46E5".data, "FOO".data, true, false⟩] :=
  (getCalendarConfigs_resolves [("FOO".data, "u".data)] (by decide) (by decide)).1.trans
    (by decide)

/-- C3 counterexample: the two well-formed entries `FOO` and `Foo`
lower-case to the same id `foo`; the resolver produces two records whose
ids are not pairwise distinct, and both URLs are retained (the last-seen
entry does not win over the first). -/
theorem getCalendarConfigs_resolves_cex :
    (getCalendarConfigs
        [("REACT_APP_CALENDAR_FOO_URL".data, "u1".data),
         ("REACT_APP_CALENDAR_Foo_URL".data, "u2".data)]).map (fun c => c.id)
      = ["foo".data, "foo".data]
  ∧ ¬ ((getCalendarConfigs
        [("REACT_APP_CALENDAR_FOO_URL".data, "u1".data),
         ("REACT_APP_CALENDAR_Foo_URL".data, "u2".data)]).map (fun c => c.id)).Nodup
  ∧ (getCalendarConfigs
        [("REACT_APP_CALENDAR_FOO_URL".data, "u1".data),
         ("REACT_APP_CALENDAR_Foo_URL".data, "u2".data)]).map (fun c => c.url)
      = ["u1".data, "u2".data] := by
  exact ⟨by decide, by decide, by decide⟩
